import Mathlib

/-!
Shallow embedding of the galaxy-protocol Caduceus gateway, covering the
agent-runtime resolution (tools/opencode_runtime.py), the hermes daemon and
MCP executor order protocol (tools/hermes.py, tools/galaxy_mcp.py), the
HermesExecutor filesystem bridge (tools/caduceus/executors/hermes.py), the
feed-processor reference index (tools/caduceus/feed_processor.py), the message
bus and channels (tools/caduceus/bus.py, channels/base.py, channels/web.py,
channels/telegram.py).

Python strings are modelled as Lean `String`/`List Char`, environment mappings
as association lists, and the filesystem effects of each operation as explicit
state records; each atomic filesystem operation (rename, write, unlink) is one
step of the model.
-/

namespace Galaxy

/-- Whitespace characters recognized by Python str.strip. -/
def isPySpace (c : Char) : Bool :=
  c == ' ' || c == '\t' || c == '\n' || c == '\r' || c == Char.ofNat 11 || c == Char.ofNat 12

/-- Python str.strip: remove leading and trailing whitespace. -/
def pyStrip (s : String) : String :=
  ⟨((s.data.dropWhile isPySpace).reverse.dropWhile isPySpace).reverse⟩

/-- Python str.startswith, via the character lists. -/
def pyStartsWith (s pre : String) : Bool :=
  pre.data.isPrefixOf s.data

/-- Python str.lower, restricted to ASCII letters. -/
def pyLower (s : String) : String :=
  ⟨s.data.map Char.toLower⟩

/-- Python Mapping.get with a default value, over an association-list
environment. -/
def envGet (env : List (String × String)) (key dflt : String) : String :=
  match env.find? (fun kv => kv.1 == key) with
  | some kv => kv.2
  | none => dflt

/-! ### tools/opencode_runtime.py -/

/-- sanitize_opencode_env (tools/opencode_runtime.py lines 75-79): keep every
variable whose key is neither exactly OPENCODE nor prefixed by underscore-less
OPENCODE_. -/
def sanitize_opencode_env (env : List (String × String)) : List (String × String) :=
  env.filter (fun kv => kv.1 != "OPENCODE" && !(pyStartsWith kv.1 "OPENCODE_"))

/-- Environment of the agent subprocess launched by hermes.call_agent
(tools/hermes.py lines 251-262): subprocess.run is invoked without an env
argument, so the subprocess inherits the caller environment unchanged. -/
def hermesAgentSubprocessEnv (callerEnv : List (String × String)) : List (String × String) :=
  callerEnv

/-- Environment of the enrichment subprocess launched by
_spawn_deepwiki_enrichment (tools/caduceus/feed_processor.py lines 589-605):
env=sanitize_opencode_env(). -/
def enrichmentSubprocessEnv (callerEnv : List (String × String)) : List (String × String) :=
  sanitize_opencode_env callerEnv

/-- Abstraction of the filesystem facts consulted by resolve_opencode_binary:
whether a path is an executable regular file (Path.is_file plus os.access
X_OK), the PATH lookup shutil.which, and the home directory Path.home(). -/
structure RuntimeFs where
  isExecFile : String → Bool
  which : String → Option String
  home : String

/-- Path(p).expanduser(): replace a leading tilde with the home directory. -/
def expanduserPath (home p : String) : String :=
  if p == "~" then home
  else if pyStartsWith p "~/" then home ++ p.drop 1
  else p

/-- _BINARY_NAMES (tools/opencode_runtime.py line 10). -/
def binaryNames : List String := ["opencode", "claude"]

/-- _HOME_CANDIDATES (tools/opencode_runtime.py lines 12-17). -/
def homeCandidates : List String :=
  [".opencode/bin/opencode", ".local/bin/opencode", ".local/bin/claude", ".claude/local/claude"]

/-- The override branch of resolve_opencode_binary (lines 36-48): expanduser
the override, accept it if executable, otherwise try shutil.which on the
override itself, otherwise report the override error. -/
def resolveOverride (override : String) (fs : RuntimeFs) : Option String × Option String :=
  let expanded := expanduserPath fs.home override
  if fs.isExecFile expanded then (some expanded, none)
  else
    match fs.which override with
    | some r => (some r, none)
    | none =>
        (none, some ("GALAXY_OPENCODE_BIN is set to " ++ override ++
          " but no executable was found. Set it to an absolute path to opencode or claude CLI."))

/-- PATH lookup over _BINARY_NAMES in priority order (lines 51-54). -/
def pathLookup (fs : RuntimeFs) : Option String :=
  binaryNames.findSome? (fun name => fs.which name)

/-- Home-directory candidate scan (lines 57-61). -/
def homeLookup (fs : RuntimeFs) : Option String :=
  homeCandidates.findSome? (fun rel =>
    let candidate := fs.home ++ "/" ++ rel
    if fs.isExecFile candidate then some candidate else none)

/-- resolve_opencode_binary (tools/opencode_runtime.py lines 20-72): returns
(binary_path, None) on success and (None, error_message) on failure. -/
def resolve_opencode_binary (env : List (String × String)) (fs : RuntimeFs) :
    Option String × Option String :=
  let override := pyStrip (envGet env "GALAXY_OPENCODE_BIN" "")
  if override != "" then resolveOverride override fs
  else
    match pathLookup fs with
    | some r => (some r, none)
    | none =>
        match homeLookup fs with
        | some c => (some c, none)
        | none =>
            (none, some ("No agent CLI found. Searched PATH for: opencode, claude. " ++
              "Install opencode or claude CLI, or set GALAXY_OPENCODE_BIN."))

/-! ### Order file states (tools/hermes.py, tools/galaxy_mcp.py)

For a fixed order id, the three on-disk states of the filesystem order
protocol: pending is ORDERS_DIR/<id>.json, claimed is
ORDERS_DIR/<id>.json.processing, archived is ARCHIVE_DIR/<id>.json.  Every
filesystem primitive below is one atomic operation of the source. -/

structure OrderFiles where
  pending : Bool
  claimed : Bool
  archived : Bool
deriving DecidableEq, Repr

/-- True when the order id is visible in at most one of the three states. -/
def atMostOneState (s : OrderFiles) : Bool :=
  !(s.pending && s.claimed) && !(s.pending && s.archived) && !(s.claimed && s.archived)

/-- order_file.rename(claimed_file) (hermes.py line 138, galaxy_mcp.py line
219): atomic rename of the pending file; FileNotFoundError (modelled as none)
when the pending file is absent. -/
def claimOrder (s : OrderFiles) : Option OrderFiles :=
  if s.pending then some { s with pending := false, claimed := true } else none

/-- claimed_file.rename(order_file) (hermes.py line 154, galaxy_mcp.py lines
232, 238, 243): rename the claim back to pending. -/
def releaseOrder (s : OrderFiles) : OrderFiles :=
  if s.claimed then { s with claimed := false, pending := true } else s

/-- archive_file.write_text(...) (hermes.py line 394, galaxy_mcp.py line 317):
write the archive entry; the claim file is still present afterwards. -/
def archiveWrite (s : OrderFiles) : OrderFiles :=
  { s with archived := true }

/-- claimed_file.unlink() (hermes.py line 395, galaxy_mcp.py line 318):
remove the claim file. -/
def removeClaim (s : OrderFiles) : OrderFiles :=
  { s with claimed := false }

/-- The sequence of order-file states an order passes through on the hermes
success path of process_order (hermes.py lines 130-190): before the claim,
after the claim rename, after the archive write, after the claim unlink.
none when the claim rename raises FileNotFoundError. -/
def hermesSuccessTrace (s : OrderFiles) : Option (List OrderFiles) :=
  match claimOrder s with
  | none => none
  | some s1 => some [s, s1, archiveWrite s1, removeClaim (archiveWrite s1)]

/-- An outbox notification record (severity, message). -/
structure Notification where
  severity : String
  message : String
deriving DecidableEq, Repr

/-- The text call_agent returns when resolve_opencode_binary fails
(hermes.py lines 247-249). -/
def agentUnavailableText (resolutionError : String) : String :=
  "Agent execution unavailable: " ++ resolutionError

/-- call_agent (hermes.py lines 244-309), restricted to the binary-resolution
outcome: when the binary resolves, the agent output text is returned; when it
does not, the unavailability text is returned as the response. -/
def hermesCallAgent (binaryResolved : Bool) (agentOutput resolutionError : String) : String :=
  if binaryResolved then agentOutput else agentUnavailableText resolutionError

/-- Result of one hermes process_order call: final order-file state, the
outbox notification written by send_notification, whether a response file was
produced, and the boolean return value of process_order. -/
structure HermesRun where
  files : OrderFiles
  outbox : Option Notification
  responseWritten : Bool
  returned : Bool
deriving DecidableEq, Repr

/-- process_order (hermes.py lines 130-190) on an order whose payload check is
given by payloadNonempty, with the agent runtime resolution outcome given by
binaryResolved.  A failed claim rename (FileNotFoundError) returns False with
no other effect; an empty payload releases the claim; otherwise call_agent is
invoked, a response file is written, the order is archived (archive write then
claim unlink) and send_notification writes a severity-success outbox record
carrying the response text. -/
def hermesProcessOrder (binaryResolved payloadNonempty : Bool)
    (agentOutput resolutionError : String) (s : OrderFiles) : HermesRun :=
  match claimOrder s with
  | none => ⟨s, none, false, false⟩
  | some s1 =>
      if payloadNonempty then
        let response := hermesCallAgent binaryResolved agentOutput resolutionError
        ⟨removeClaim (archiveWrite s1), some ⟨"success", response⟩, true, true⟩
      else
        ⟨releaseOrder s1, none, false, false⟩

/-- An audit-log record written by audit.log_event (severity, event_type);
audit records go to logs/galaxy-audit.jsonl, not to the outbox. -/
structure AuditEvent where
  severity : String
  eventType : String
deriving DecidableEq, Repr

/-- Result of one galaxy_execute call: final order-file state, outbox
notification (if any), audit events in order, the status field and the error
field of the returned record. -/
structure McpRun where
  files : OrderFiles
  outbox : Option Notification
  audit : List AuditEvent
  status : Option String
  errorMsg : Option String
deriving DecidableEq, Repr

/-- galaxy_execute (tools/galaxy_mcp.py lines 180-398) with the standby
check, payload length/blank checks, binary resolution and subprocess exit
code abstracted to parameters.  The unavailable branch (lines 241-256)
releases the claim, logs an order_execution_unavailable audit event with
severity error, writes no outbox record and returns status unavailable; the
executed branch archives (write then unlink) and writes an outbox record whose
severity is success or warning by exit code. -/
def galaxyExecute (standbyActive binaryResolved execExitZero : Bool)
    (payloadLen : Nat) (payloadBlank : Bool) (resolutionError : String)
    (s : OrderFiles) : McpRun :=
  if !s.pending then
    ⟨s, none, [⟨"warning", "order_not_found"⟩], none, some "Order not found"⟩
  else if standbyActive then
    ⟨s, none, [], some "delegated", none⟩
  else
    let started : AuditEvent := ⟨"info", "order_execution_started"⟩
    let s1 : OrderFiles := { s with pending := false, claimed := true }
    if payloadLen > 10000 then
      ⟨releaseOrder s1, none, [started], none, some "Payload too long"⟩
    else if payloadBlank then
      ⟨releaseOrder s1, none, [started], none, some "Empty payload"⟩
    else if !binaryResolved then
      ⟨releaseOrder s1, none, [started, ⟨"error", "order_execution_unavailable"⟩],
        some "unavailable", some ("OpenCode runtime unavailable: " ++ resolutionError)⟩
    else
      ⟨removeClaim (archiveWrite s1),
        some (if execExitZero then ⟨"success", "Order Executed"⟩ else ⟨"warning", "Order Failed"⟩),
        [started,
          if execExitZero then ⟨"info", "order_executed_success"⟩
          else ⟨"error", "order_executed_failure"⟩],
        some (if execExitZero then "success" else "failed"), none⟩

/-! ### HermesExecutor (tools/caduceus/executors/hermes.py) -/

/-- The filesystem a HermesExecutor.execute call touches, for a fixed order
id: the pending order file it writes, the claim file the hermes daemon may
have created from it, the processing and heartbeat outbox notifications, the
response file, and the archive entry. -/
structure ExecutorFs where
  orderPending : Bool
  orderClaimed : Bool
  processingNotif : Bool
  heartbeats : List Nat
  responsePresent : Bool
  archived : Bool
deriving DecidableEq, Repr

/-- Result record of HermesExecutor.execute. -/
structure ExecResult where
  success : Bool
  responseText : String
  errorMsg : Option String
deriving DecidableEq, Repr

/-- The outcome branches of HermesExecutor.execute
(tools/caduceus/executors/hermes.py lines 100-178) after the order file and
the processing notification are written, with responded giving whether the
response file appeared within self.timeout.  On response (lines 107-131): the
response file, the processing notification and every heartbeat notification
are removed and success is returned.  On timeout (lines 156-178): the pending
order file is unlinked if still present, the processing notification and
every heartbeat notification are removed, and success false is returned with
the timeout error string; the claim file, if any, is untouched and nothing is
archived. -/
def hermesExecutorWait (timeout : Nat) (responded : Bool) (responseText : String)
    (fs : ExecutorFs) : ExecutorFs × ExecResult :=
  if responded then
    ({ fs with responsePresent := false, processingNotif := false, heartbeats := [] },
      ⟨true, responseText, none⟩)
  else
    ({ fs with orderPending := false, processingNotif := false, heartbeats := [] },
      ⟨false, "", some ("Timeout after " ++ toString timeout ++ "s waiting for response")⟩)

/-! ### Feed processor reference index (tools/caduceus/feed_processor.py)

URLs are modelled in the parsed form urllib.parse.urlparse produces (scheme,
netloc, path, query); index entries carry Option-valued fields, none standing
for a key that is absent from the JSON object (or, for url, present but not a
string). -/

structure Url where
  scheme : String
  netloc : String
  path : String
  query : String
deriving DecidableEq, Repr

/-- Python value-or for string-valued dict lookups: a missing key or an empty
string is falsy. -/
def truthyStr : Option String → Option String
  | some s => if s == "" then none else some s
  | none => none

/-- Python `a or b` for strings: empty is falsy. -/
def pyOrS (a b : String) : String :=
  if a == "" then b else a

/-- str.rstrip with a slash argument: remove every trailing slash. -/
def rstripSlash (s : String) : String :=
  ⟨(s.data.reverse.dropWhile (fun c => c == '/')).reverse⟩

/-- _canonical_url (feed_processor.py lines 309-316): lowercase scheme and
netloc, strip trailing slashes from the path (an emptied path becomes a lone
slash), keep the query, drop the fragment. -/
def canonicalUrl (u : Url) : String :=
  let path0 := rstripSlash u.path
  let path := if path0 == "" then "/" else path0
  let query := if u.query == "" then "" else "?" ++ u.query
  pyLower u.scheme ++ "://" ++ pyLower u.netloc ++ path ++ query

/-- One entry of index.json references.  Fields are Option-valued: none is an
absent key (for url, also a non-string value). -/
structure RefEntry where
  slug : Option String
  url : Option Url
  title : Option String
  rtype : Option String
  tags : Option (List String)
  note : Option String
  sharedAt : Option String
  sharedVia : Option String
  file : Option String
  analysis : Option String
  createdAt : Option String
  updatedAt : Option String
deriving DecidableEq, Repr

/-- The scan of _find_existing_reference (lines 319-328): indices from i-1
down to 0, skipping entries whose url is not a string, returning the first
(i.e. highest) index whose canonical url equals the target. -/
def findExistingAux (refs : List RefEntry) (target : String) : Nat → Option (Nat × RefEntry)
  | 0 => none
  | i + 1 =>
      match refs[i]? with
      | some ref =>
          match ref.url with
          | some u =>
              if canonicalUrl u == target then some (i, ref)
              else findExistingAux refs target i
          | none => findExistingAux refs target i
      | none => findExistingAux refs target i

/-- _find_existing_reference (feed_processor.py lines 319-328). -/
def findExistingReference (refs : List RefEntry) (u : Url) : Option (Nat × RefEntry) :=
  findExistingAux refs (canonicalUrl u) refs.length

/-- The per-call inputs of process_feed that the fetch-and-extract phase
(lines 707-807) computes before the index is touched: title and note already
passed through _to_ascii, the detected type, the capped sorted tag list, the
via string and the optional analysis status of the enrichment dispatch. -/
structure FeedFields where
  titleAscii : String
  rtype : String
  tags : List String
  noteAscii : String
  via : String
  analysis : Option String
deriving DecidableEq, Repr

/-- Result of the index-upsert phase of process_feed: the new references
list, the updated_existing flag, the slug and markdown file name used (the
markdown file is written at that name), and which entry was replaced. -/
structure UpsertResult where
  refs : List RefEntry
  updatedExisting : Bool
  slug : String
  fileName : String
  replaced : Option (Nat × RefEntry)
deriving DecidableEq, Repr

/-- The reference_entry dict built at feed_processor.py lines 880-891, before
the created_at/updated_at handling of lines 893-901. -/
def referenceEntry (u : Url) (f : FeedFields) (sharedAt slug fileName : String) : RefEntry :=
  { slug := some slug, url := some u, title := some (pyOrS f.titleAscii "Untitled"),
    rtype := some f.rtype, tags := some f.tags, note := truthyStr (some f.noteAscii),
    sharedAt := some sharedAt, sharedVia := some f.via, file := some fileName,
    analysis := f.analysis, createdAt := none, updatedAt := none }

/-- The slug reused on the update path (line 819): the truthy slug of the
existing entry, else the fresh unique slug. -/
def upsertSlug (ex : RefEntry) (freshSlug : String) : String :=
  match truthyStr ex.slug with
  | some s => s
  | none => freshSlug

/-- The file name reused on the update path (line 820): the truthy file of
the existing entry, else slug.md. -/
def upsertFileName (ex : RefEntry) (freshSlug : String) : String :=
  match truthyStr ex.file with
  | some fn => fn
  | none => upsertSlug ex freshSlug ++ ".md"

/-- The entry written on the update path (lines 880-898): the base entry,
created_at preserved from the existing entry (falling back to its
shared_at), updated_at set to the call timestamp. -/
def updatedEntry (u : Url) (f : FeedFields) (sharedAt : String) (ex : RefEntry)
    (freshSlug : String) : RefEntry :=
  { referenceEntry u f sharedAt (upsertSlug ex freshSlug) (upsertFileName ex freshSlug) with
    createdAt := match truthyStr ex.createdAt with
      | some c => some c
      | none => truthyStr ex.sharedAt,
    updatedAt := some sharedAt }

/-- The entry appended on the new-reference path (lines 880-901): the base
entry with created_at set to the call timestamp. -/
def appendedEntry (u : Url) (f : FeedFields) (sharedAt freshSlug : String) : RefEntry :=
  { referenceEntry u f sharedAt freshSlug (freshSlug ++ ".md") with
    createdAt := some sharedAt }

/-- The index-upsert phase of process_feed (feed_processor.py lines 809-901):
look up an existing entry by canonical url; reuse its slug and file name when
they are truthy (falling back to a freshly generated unique slug, abstracted
as freshSlug since _unique_slug consults the filesystem); build the new entry
with shared_at = the call timestamp; in the existing case preserve created_at
(falling back to the old shared_at) and set updated_at, replacing the entry in
place; otherwise set created_at and append. -/
def upsertReference (refs : List RefEntry) (u : Url) (f : FeedFields)
    (sharedAt freshSlug : String) : UpsertResult :=
  match findExistingReference refs u with
  | some (idx, ex) =>
      ⟨refs.set idx (updatedEntry u f sharedAt ex freshSlug), true,
        upsertSlug ex freshSlug, upsertFileName ex freshSlug, some (idx, ex)⟩
  | none =>
      ⟨refs ++ [appendedEntry u f sharedAt freshSlug], false,
        freshSlug, freshSlug ++ ".md", none⟩

/-- The per-entry required-field check of _validate_index (lines 644-656):
slug, url, title, file, type, tags, shared_at, shared_via must all be
present. -/
def validEntry (e : RefEntry) : Bool :=
  e.slug.isSome && e.url.isSome && e.title.isSome && e.file.isSome &&
    e.rtype.isSome && e.tags.isSome && e.sharedAt.isSome && e.sharedVia.isSome

/-- _validate_index (feed_processor.py lines 635-660) on a references list
that round-trips through json (the file just written always parses): the
references value is a list and every entry carries the required fields. -/
def validateIndex (refs : List RefEntry) : Bool :=
  refs.all validEntry

/-- The revert of feed_processor.py lines 909-912: restore the previous entry
at its index, or pop the appended entry. -/
def revertUpsert (refs2 : List RefEntry) (replaced : Option (Nat × RefEntry)) :
    List RefEntry :=
  match replaced with
  | some (idx, ex) => refs2.set idx ex
  | none => refs2.dropLast

/-- The write-validate-revert tail of process_feed (lines 902-921): write the
upserted index; if validation fails, restore the replaced entry (or pop the
appended one) and write the restored index back.  Returns the references list
on disk afterwards and whether validation passed. -/
def processFeedIndexWrite (refs : List RefEntry) (u : Url) (f : FeedFields)
    (sharedAt freshSlug : String) : List RefEntry × Bool :=
  let r := upsertReference refs u f sharedAt freshSlug
  if validateIndex r.refs then (r.refs, true)
  else (revertUpsert r.refs r.replaced, false)

/-! ### Message bus and channels (tools/caduceus/bus.py, channels/base.py,
channels/web.py) -/

/-- InboundMessage (bus.py lines 23-53); user_id defaults to the empty
string. -/
structure InboundMessage where
  channel : String
  senderId : String
  chatId : String
  content : String
  userId : String := ""
deriving DecidableEq, Repr

/-- InboundMessage.session_key (bus.py lines 44-53): the user id when set
(authenticated), otherwise channel:chat_id. -/
def InboundMessage.sessionKey (m : InboundMessage) : String :=
  if m.userId != "" then m.userId else m.channel ++ ":" ++ m.chatId

/-- The keyword parameters accepted by BaseChannel._handle_message
(channels/base.py lines 60-67): sender_id, chat_id, content, media,
metadata.  The signature has no user_id parameter and no kwargs
catch-all. -/
def baseHandleMessageParams : List String :=
  ["sender_id", "chat_id", "content", "media", "metadata"]

/-- The keyword arguments WebChannel.handle_websocket passes in its inbound
frame loop (channels/web.py lines 216-222). -/
def webInboundCallKeywords : List String :=
  ["sender_id", "chat_id", "content", "metadata", "user_id"]

/-- Python keyword-call binding for a method without a kwargs catch-all: the
call binds exactly when every supplied keyword is a parameter name; an
unexpected keyword raises TypeError. -/
def pyKeywordCallOk (params kwargs : List String) : Bool :=
  kwargs.all (fun k => params.contains k)

/-- The body of BaseChannel._handle_message (channels/base.py lines 80-88)
for the web channel: it constructs an InboundMessage without setting user_id
(class name WebChannel gives channel "web") and publishes it. -/
def baseHandleMessage (senderId chatId content : String) : InboundMessage :=
  { channel := "web", senderId := senderId, chatId := chatId, content := content }

/-- Outcome of a Python method call: a returned value, or an uncaught
TypeError. -/
inductive PyCallResult (α : Type)
  | ok (value : α)
  | typeError (msg : String)
deriving DecidableEq, Repr

/-- One inbound web-socket frame from an authenticated user
(channels/web.py lines 210-222): handle_websocket sets sender_id and chat_id
to the authenticated user id and calls self._handle_message with the extra
keyword user_id.  The call is dispatched with Python keyword-binding
semantics against BaseChannel._handle_message; on TypeError no message is
published, otherwise the published InboundMessage is returned. -/
def webHandleFrame (userId content : String) : PyCallResult InboundMessage :=
  if pyKeywordCallOk baseHandleMessageParams webInboundCallKeywords then
    PyCallResult.ok (baseHandleMessage userId userId content)
  else
    PyCallResult.typeError "_handle_message got an unexpected keyword argument user_id"

/-! ### TelegramChannel (tools/caduceus/channels/telegram.py) -/

/-- Python str.replace(old, new, 1): replace the first occurrence only. -/
def replaceFirst (s pat rep : String) : String :=
  match s.splitOn pat with
  | [] => s
  | [x] => x
  | x :: xs => x ++ rep ++ String.intercalate pat xs

/-- Python `pat in s` for a nonempty pattern. -/
def containsStr (s pat : String) : Bool :=
  (s.splitOn pat).length ≥ 2

/-- Collapse every run of three or more newlines to exactly two, keeping
shorter runs: re.sub of a three-plus newline run with two newlines
(telegram.py line 147).  run counts the newlines read so far. -/
def collapseNewlinesAux : List Char → Nat → List Char
  | [], run => List.replicate (if run ≥ 3 then 2 else run) '\n'
  | c :: rest, run =>
      if c == '\n' then collapseNewlinesAux rest (run + 1)
      else List.replicate (if run ≥ 3 then 2 else run) '\n' ++ c :: collapseNewlinesAux rest 0

/-- One line of format_response_compact (telegram.py lines 115-143): strip
the line, then map headers to emoji sections, bold markers to HTML, indent
plain bullets, drop blank lines and markdown separators. -/
def compactLine (raw : String) : Option String :=
  let line := pyStrip raw
  if line == "" then none
  else if pyStartsWith line "# " then some ("<b>🎯 " ++ line.drop 2 ++ "</b>")
  else if pyStartsWith line "## " then some ("<b>📌 " ++ line.drop 3 ++ "</b>")
  else if pyStartsWith line "### " then some ("<b>▪️ " ++ line.drop 4 ++ "</b>")
  else if containsStr line "**" then
    some (replaceFirst (replaceFirst line "**" "<b>") "**" "</b>")
  else if pyStartsWith line "- ✅" || pyStartsWith line "✅" then some line
  else if pyStartsWith line "- ❌" || pyStartsWith line "❌" then some line
  else if pyStartsWith line "- " then some ("  " ++ line.drop 2)
  else if line == "---" then none
  else some line

/-- format_response_compact (telegram.py lines 109-149): transform each line,
join with single newlines, collapse three-plus newline runs, hard cap at 1500
characters. -/
def formatResponseCompact (text : String) : String :=
  let lines := (pyStrip text).split (fun c => c == '\n')
  let result := String.intercalate "\n" (lines.filterMap compactLine)
  (String.mk (collapseNewlinesAux result.data 0)).take 1500

/-- The last index i with l.get? i = newline, if any: the value
full_text.rfind of a newline between 0 and the window end computes on the
window l (telegram.py line 555, with -1 as none). -/
def lastNewlineIdx : List Char → Option Nat
  | [] => none
  | c :: rest =>
      match lastNewlineIdx rest with
      | some j => some (j + 1)
      | none => if c == '\n' then some 0 else none

/-- The split point the outbox broadcast loop uses on a text longer than 4000
characters (telegram.py lines 555-557): the last newline before index 4000
when it is at index 2000 or later, otherwise a hard split at 4000. -/
def outboxSplitPoint (s : List Char) : Nat :=
  match lastNewlineIdx (s.take 4000) with
  | some j => if j < 2000 then 4000 else j
  | none => 4000

/-- The chunking loop of poll_outbox_messages (telegram.py lines 550-559),
with fuel bounding the iteration count (outboxSplit supplies fuel = length,
which suffices since every iteration removes at least 2000 characters): a
text of at most 4000 characters is one chunk; otherwise cut at the split
point and continue after stripping the leading newlines of the remainder. -/
def outboxSplitAux : Nat → List Char → List (List Char)
  | _, [] => []
  | 0, s => [s]
  | n + 1, s =>
      if s.length ≤ 4000 then [s]
      else
        let k := outboxSplitPoint s
        s.take k :: outboxSplitAux n ((s.drop k).dropWhile (fun c => c == '\n'))

/-- The chunks the outbox broadcast sends for a message text
(telegram.py lines 550-559). -/
def outboxSplit (s : List Char) : List (List Char) :=
  outboxSplitAux s.length s

/-- Interleave chunks with the separators dropped between them:
chunk1 ++ sep1 ++ chunk2 ++ sep2 ++ ... (trailing extras joined). -/
def interleaveJoin : List (List Char) → List (List Char) → List Char
  | [], seps => seps.flatten
  | c :: cs, [] => c ++ interleaveJoin cs []
  | c :: cs, sep :: seps => c ++ sep ++ interleaveJoin cs seps

/-- How the acknowledgment poller delivers a response: inline (header message
then the compact response) or as a compact summary plus the response file
attached as a document. -/
inductive AckDelivery
  | inline (headerMsg compactResponse : String)
  | attachment (summaryMsg docCaption : String)
deriving DecidableEq, Repr

/-- True on the inline constructor. -/
def AckDelivery.isInline : AckDelivery → Bool
  | .inline _ _ => true
  | .attachment _ _ => false

/-- The response-delivery decision of poll_order_acknowledgments
(telegram.py lines 642-684) once an acknowledged order's response file has
been found and read: a response of at most 1000 characters is sent inline as
a header message plus the compact-formatted response; a longer one is sent as
a summary built from the first 400 characters of the compact format, with the
full response file attached as a document. -/
def ackRoute (machine orderText responseText : String) : AckDelivery :=
  if responseText.length ≤ 1000 then
    .inline
      ("✅ <b>Order Acknowledged</b>\n\n📍 <code>" ++ machine ++ "</code>\n📨 <i>" ++
        orderText ++ "</i>")
      (formatResponseCompact responseText)
  else
    .attachment
      ("✅ <b>Order Acknowledged</b>\n\n📍 <code>" ++ machine ++ "</code>\n📨 <i>" ++
        orderText ++ "</i>\n\n<b>Summary:</b>\n" ++
        (formatResponseCompact responseText).take 400 ++ "...\n\n📎 Full response attached")
      ("📄 Full response from " ++ machine)

/-! ### Concrete fixtures used by closed theorems -/

/-- A 4001-character outbox text whose only newline sits at index 1999: 1999
letters, one newline, 2001 letters. -/
def c7Text : List Char :=
  List.replicate 1999 'a' ++ '\n' :: List.replicate 2001 'b'

/-- The parsed form of https://github.com/example/repo. -/
def exampleRepoUrl : Url :=
  ⟨"https", "github.com", "/example/repo", ""⟩

/-- The parsed form of https://github.com/example/repo/ (trailing slash). -/
def exampleRepoUrlSlash : Url :=
  ⟨"https", "github.com", "/example/repo/", ""⟩

/-- An index entry as the first process_feed call on exampleRepoUrl leaves
it. -/
def exampleEntry : RefEntry :=
  { slug := some "2026-02-23-example-repo", url := some exampleRepoUrl,
    title := some "Example", rtype := some "repo", tags := some ["github", "repo"],
    note := none, sharedAt := some "2026-02-23T10:00:00Z", sharedVia := some "telegram",
    file := some "2026-02-23-example-repo.md", analysis := none,
    createdAt := some "2026-02-23T10:00:00Z", updatedAt := none }

/-- The fetch-phase fields of a second process_feed call on the example
repository. -/
def exampleFields : FeedFields :=
  { titleAscii := "Example", rtype := "repo", tags := ["github", "repo"],
    noteAscii := "second", via := "telegram", analysis := none }

/-- A runtime filesystem with no executable files, where PATH resolves the
well-known name opencode only. -/
def fsWhichOpencode : RuntimeFs :=
  ⟨fun _ => false, fun n => if n == "opencode" then some "/usr/bin/opencode" else none,
    "/home/user"⟩

/-- A runtime filesystem where exactly the file /opt/agent/opencode is an
executable, and PATH resolves nothing. -/
def fsExecOverride : RuntimeFs :=
  ⟨fun p => p == "/opt/agent/opencode", fun _ => none, "/home/user"⟩

/-! ## Theorems -/

/-- Claim C9, counterexample: the hermes agent subprocess is launched with
the caller environment inherited unchanged, so an OPENCODE_-prefixed
variable reaches the subprocess, contrary to the claim that every launch of
the agent subprocess strips such variables. -/
theorem hermes_env_keeps_opencode_vars :
    ("OPENCODE_SERVER_PASSWORD", "secret") ∈
      hermesAgentSubprocessEnv [("OPENCODE_SERVER_PASSWORD", "secret"), ("PATH", "/usr/bin")]
    ∧ pyStartsWith "OPENCODE_SERVER_PASSWORD" "OPENCODE_" = true
    ∧ ("OPENCODE_SERVER_PASSWORD", "secret") ∉
      sanitize_opencode_env [("OPENCODE_SERVER_PASSWORD", "secret"), ("PATH", "/usr/bin")] := by
  decide

/-- Claim C9, amended: sanitize_opencode_env keeps exactly the caller
variables whose key is neither OPENCODE nor OPENCODE_-prefixed, with values
unchanged; the DeepWiki enrichment subprocess is launched with that sanitized
environment, while the hermes call_agent subprocess inherits the caller
environment unchanged. -/
theorem sanitize_env_spec (env : List (String × String)) (k v : String) :
    (((k, v) ∈ sanitize_opencode_env env) ↔
      ((k, v) ∈ env ∧ k ≠ "OPENCODE" ∧ pyStartsWith k "OPENCODE_" = false))
    ∧ enrichmentSubprocessEnv env = sanitize_opencode_env env
    ∧ hermesAgentSubprocessEnv env = env := by
  refine ⟨?_, rfl, rfl⟩
  simp only [sanitize_opencode_env, List.mem_filter, Bool.and_eq_true, bne_iff_ne,
    Bool.not_eq_true', and_assoc]

/-- Claim C10, counterexample: with GALAXY_OPENCODE_BIN set to the non-empty
value of a single space, resolution falls through to the PATH lookup for the
well-known binary names instead of resolving the override. -/
theorem whitespace_override_falls_through :
    resolve_opencode_binary [("GALAXY_OPENCODE_BIN", " ")] fsWhichOpencode =
      (some "/usr/bin/opencode", none)
    ∧ resolve_opencode_binary [("GALAXY_OPENCODE_BIN", " ")] fsWhichOpencode ≠
      resolveOverride " " fsWhichOpencode
    ∧ envGet [("GALAXY_OPENCODE_BIN", " ")] "GALAXY_OPENCODE_BIN" "" = " "
    ∧ (" " : String) ≠ ""
    ∧ (resolve_opencode_binary [("GALAXY_OPENCODE_BIN", " ")] fsWhichOpencode).1 =
      fsWhichOpencode.which "opencode" := by
  decide

/-- Helper for claim C10: the override branch alone returns exactly one of a
path and an error. -/
theorem resolveOverride_exclusive (override : String) (fs : RuntimeFs) :
    ((resolveOverride override fs).1 = none ↔ (resolveOverride override fs).2 ≠ none) := by
  simp only [resolveOverride]
  by_cases h : fs.isExecFile (expanduserPath fs.home override) = true
  · rw [if_pos h]
    simp
  · rw [if_neg h]
    cases hw : fs.which override with
    | some r => simp [hw]
    | none => simp [hw]

/-- Claim C10, amended: resolve_opencode_binary always returns exactly one of
a binary path and an error message, and whenever the GALAXY_OPENCODE_BIN
override is non-empty after stripping whitespace, the result is computed by
the override branch alone, never by the PATH or home-directory fallbacks. -/
theorem resolve_binary_exclusive_override (env : List (String × String)) (fs : RuntimeFs) :
    ((resolve_opencode_binary env fs).1 = none ↔ (resolve_opencode_binary env fs).2 ≠ none)
    ∧ (pyStrip (envGet env "GALAXY_OPENCODE_BIN" "") ≠ "" →
        resolve_opencode_binary env fs =
          resolveOverride (pyStrip (envGet env "GALAXY_OPENCODE_BIN" "")) fs) := by
  constructor
  · by_cases h : (pyStrip (envGet env "GALAXY_OPENCODE_BIN" "") != "") = true
    · have he : resolve_opencode_binary env fs =
          resolveOverride (pyStrip (envGet env "GALAXY_OPENCODE_BIN" "")) fs := by
        simp only [resolve_opencode_binary]
        rw [if_pos h]
      rw [he]
      exact resolveOverride_exclusive _ _
    · simp only [resolve_opencode_binary]
      rw [if_neg h]
      cases hp : pathLookup fs with
      | some r => simp
      | none =>
        cases hh : homeLookup fs with
        | some c => simp
        | none => simp
  · intro h
    simp only [resolve_opencode_binary]
    rw [if_pos (bne_iff_ne.2 h)]

/-- Claim C10 witness: a concrete executable override is resolved through the
override branch. -/
theorem resolve_binary_exclusive_override_witness :
    pyStrip (envGet [("GALAXY_OPENCODE_BIN", "/opt/agent/opencode")] "GALAXY_OPENCODE_BIN" "") ≠ ""
    ∧ resolve_opencode_binary [("GALAXY_OPENCODE_BIN", "/opt/agent/opencode")] fsExecOverride =
        resolveOverride
          (pyStrip (envGet [("GALAXY_OPENCODE_BIN", "/opt/agent/opencode")] "GALAXY_OPENCODE_BIN" ""))
          fsExecOverride :=
  ⟨by decide,
    (resolve_binary_exclusive_override [("GALAXY_OPENCODE_BIN", "/opt/agent/opencode")]
      fsExecOverride).2 (by decide)⟩

/-- Claim C8: the acknowledgment poller delivers a found response inline (as
the header plus the compact format) exactly when the response text has at
most 1000 characters, and as a compact 400-character summary plus the
attached response document whenever it has 1001 or more. -/
theorem ack_inline_threshold (machine orderText t : String) :
    ((ackRoute machine orderText t).isInline = true ↔ t.length ≤ 1000)
    ∧ (t.length ≤ 1000 → ackRoute machine orderText t =
        AckDelivery.inline
          ("✅ <b>Order Acknowledged</b>\n\n📍 <code>" ++ machine ++ "</code>\n📨 <i>" ++
            orderText ++ "</i>")
          (formatResponseCompact t))
    ∧ (1001 ≤ t.length → ackRoute machine orderText t =
        AckDelivery.attachment
          ("✅ <b>Order Acknowledged</b>\n\n📍 <code>" ++ machine ++ "</code>\n📨 <i>" ++
            orderText ++ "</i>\n\n<b>Summary:</b>\n" ++
            (formatResponseCompact t).take 400 ++ "...\n\n📎 Full response attached")
          ("📄 Full response from " ++ machine)) := by
  unfold ackRoute
  by_cases h : t.length ≤ 1000
  · rw [if_pos h]
    refine ⟨by simp [AckDelivery.isInline, h], fun _ => rfl, fun h2 => absurd h (by omega)⟩
  · rw [if_neg h]
    refine ⟨by simp [AckDelivery.isInline, h], fun h2 => absurd h2 h, fun _ => rfl⟩

/-- Claim C8 witness: a two-character response is delivered inline. -/
theorem ack_inline_threshold_witness :
    ("hi" : String).length ≤ 1000
    ∧ ackRoute "lab" "do it" "hi" =
        AckDelivery.inline
          ("✅ <b>Order Acknowledged</b>\n\n📍 <code>" ++ "lab" ++ "</code>\n📨 <i>" ++
            "do it" ++ "</i>")
          (formatResponseCompact "hi") :=
  ⟨by decide, (ack_inline_threshold "lab" "do it" "hi").2.1 (by decide)⟩

/-- Claim C6: on an authenticated web-socket inbound frame the channel calls
BaseChannel._handle_message with a user_id keyword the base signature does
not accept, so the call raises TypeError and no InboundMessage is published;
had the message been built with the user id set, its session key would have
been that user id. -/
theorem web_frame_user_id_typeerror :
    webHandleFrame "owl" "hello" =
      PyCallResult.typeError "_handle_message got an unexpected keyword argument user_id"
    ∧ pyKeywordCallOk baseHandleMessageParams webInboundCallKeywords = false
    ∧ "user_id" ∈ webInboundCallKeywords
    ∧ "user_id" ∉ baseHandleMessageParams
    ∧ InboundMessage.sessionKey
        { channel := "web", senderId := "owl", chatId := "owl", content := "hello",
          userId := "owl" } = "owl" := by
  decide

/-- Claim C3, counterexample: at the configured 600-second timeout the
executor's error string carries the suffix "waiting for response", so it is
not the claimed "Timeout after 600s"; moreover a claim file held by the
daemon is left in place (not released) while the pending order file is
removed. -/
theorem executor_timeout_error_string_cex :
    (hermesExecutorWait 600 false "" ⟨false, true, true, [60, 120], false, false⟩).2.errorMsg =
        some "Timeout after 600s waiting for response"
    ∧ (hermesExecutorWait 600 false "" ⟨false, true, true, [60, 120], false, false⟩).2.errorMsg ≠
        some "Timeout after 600s"
    ∧ (hermesExecutorWait 600 false "" ⟨false, true, true, [60, 120], false, false⟩).1.orderClaimed
        = true
    ∧ (hermesExecutorWait 600 false "" ⟨false, true, true, [60, 120], false, false⟩).1.orderPending
        = false := by
  decide

/-- Claim C3, amended: when no response file appears within the timeout,
HermesExecutor.execute returns success false with error "Timeout after Ns
waiting for response", removes the processing notification and every
heartbeat notification for the order id, removes the still-pending order
file, archives nothing, and leaves any claim file untouched. -/
theorem executor_timeout_behavior (timeout : Nat) (fs : ExecutorFs) :
    hermesExecutorWait timeout false "" fs =
      ({ fs with orderPending := false, processingNotif := false, heartbeats := [] },
        ⟨false, "", some ("Timeout after " ++ toString timeout ++ "s waiting for response")⟩)
    ∧ (hermesExecutorWait timeout false "" fs).1.orderClaimed = fs.orderClaimed
    ∧ (hermesExecutorWait timeout false "" fs).1.archived = fs.archived
    ∧ (hermesExecutorWait timeout false "" fs).1.heartbeats = []
    ∧ (hermesExecutorWait timeout false "" fs).1.processingNotif = false
    ∧ (hermesExecutorWait timeout false "" fs).2.success = false :=
  ⟨rfl, rfl, rfl, rfl, rfl, rfl⟩

/-- Claim C1, counterexample: on the hermes success path the archive entry is
written before the claim file is unlinked, so at the instant after the
archive write the order id is visible as both claimed and archived, contrary
to the claim that at every instant it appears in at most one state. -/
theorem archive_window_dual_visibility :
    hermesSuccessTrace ⟨true, false, false⟩ =
      some [⟨true, false, false⟩, ⟨false, true, false⟩, ⟨false, true, true⟩,
        ⟨false, false, true⟩]
    ∧ atMostOneState ⟨false, true, true⟩ = false
    ∧ (⟨false, true, true⟩ : OrderFiles).claimed = true
    ∧ (⟨false, true, true⟩ : OrderFiles).archived = true := by
  decide

/-- Claim C1, amended: a claim rename on a missing pending file makes
process_order return without error or any state change; claiming is the
atomic rename of the pending file into the claim file; along the hermes
success path an order id is never visible as pending-and-claimed or
pending-and-archived, and the sole dually-visible instant is the archive
window (claimed and archived, between the archive write and the claim
unlink). -/
theorem order_state_exclusion_amended :
    (∀ (b p : Bool) (ao re : String) (s : OrderFiles), s.pending = false →
        hermesProcessOrder b p ao re s = ⟨s, none, false, false⟩)
    ∧ (∀ s : OrderFiles, s.pending = true →
        claimOrder s = some { s with pending := false, claimed := true })
    ∧ ((hermesSuccessTrace ⟨true, false, false⟩).getD []).all
        (fun st => !(st.pending && st.claimed) && !(st.pending && st.archived)) = true
    ∧ ((hermesSuccessTrace ⟨true, false, false⟩).getD []).filter
        (fun st => !atMostOneState st) = [⟨false, true, true⟩] := by
  refine ⟨?_, ?_, by decide, by decide⟩
  · intro b p ao re s h
    simp [hermesProcessOrder, claimOrder, h]
  · intro s h
    simp [claimOrder, h]

/-- Claim C1 witness: the skip-on-lost-race and atomic-claim parts of the
amended claim at concrete states. -/
theorem order_state_exclusion_amended_witness :
    ((⟨false, true, false⟩ : OrderFiles).pending = false
      ∧ hermesProcessOrder true true "ok" "err" ⟨false, true, false⟩ =
          ⟨⟨false, true, false⟩, none, false, false⟩)
    ∧ ((⟨true, false, false⟩ : OrderFiles).pending = true
      ∧ claimOrder ⟨true, false, false⟩ = some ⟨false, true, false⟩) :=
  ⟨⟨rfl, order_state_exclusion_amended.1 true true "ok" "err" ⟨false, true, false⟩ rfl⟩,
    ⟨rfl, order_state_exclusion_amended.2.1 ⟨true, false, false⟩ rfl⟩⟩

/-- Claim C2, counterexample: when the binary cannot be resolved the hermes
daemon does not release the claim: process_order archives the order and
emits a severity-success outbox notification carrying the unavailability
text, contrary to the claimed release, warning severity and non-archival. -/
theorem hermes_unavailable_archives_order :
    hermesProcessOrder false true "out" "no binary" ⟨true, false, false⟩ =
      ⟨⟨false, false, true⟩, some ⟨"success", "Agent execution unavailable: no binary"⟩,
        true, true⟩
    ∧ (⟨false, false, true⟩ : OrderFiles).archived = true
    ∧ (⟨false, false, true⟩ : OrderFiles).pending = false
    ∧ "success" ≠ "warning" := by
  decide

/-- Claim C2, amended: when the agent binary cannot be resolved, the MCP
executor galaxy_execute releases the claim back to pending, archives
nothing, writes no outbox notification, logs an order_execution_unavailable
audit event with severity error and returns status unavailable (so a later
poll picks the order up); the hermes daemon instead archives the order and
emits a severity-success outbox notification whose message is the
unavailability text. -/
theorem binary_unavailable_behavior :
    (∀ (ez : Bool) (len : Nat) (err : String) (s : OrderFiles),
        s.pending = true → s.claimed = false → len ≤ 10000 →
        galaxyExecute false false ez len false err s =
          ⟨s, none,
            [⟨"info", "order_execution_started"⟩, ⟨"error", "order_execution_unavailable"⟩],
            some "unavailable", some ("OpenCode runtime unavailable: " ++ err)⟩)
    ∧ (∀ ao err : String,
        hermesProcessOrder false true ao err ⟨true, false, false⟩ =
          ⟨⟨false, false, true⟩, some ⟨"success", agentUnavailableText err⟩, true, true⟩) := by
  constructor
  · intro ez len err s hp hc hlen
    obtain ⟨p, c, a⟩ := s
    simp only at hp hc
    subst hp; subst hc
    have h1 : ¬ (len > 10000) := by omega
    simp [galaxyExecute, releaseOrder, h1]
  · intro ao err
    rfl

/-- Claim C2 witness: the galaxy_execute unavailable path at a concrete
pending order. -/
theorem binary_unavailable_behavior_witness :
    (⟨true, false, false⟩ : OrderFiles).pending = true
    ∧ (⟨true, false, false⟩ : OrderFiles).claimed = false
    ∧ (5 : Nat) ≤ 10000
    ∧ galaxyExecute false false true 5 false "boom" ⟨true, false, false⟩ =
        ⟨⟨true, false, false⟩, none,
          [⟨"info", "order_execution_started"⟩, ⟨"error", "order_execution_unavailable"⟩],
          some "unavailable", some ("OpenCode runtime unavailable: " ++ "boom")⟩ :=
  ⟨rfl, rfl, by decide,
    binary_unavailable_behavior.1 true 5 "boom" ⟨true, false, false⟩ rfl rfl (by decide)⟩

/-- Helper: a list without a last-newline index has no newline at all. -/
theorem lastNewlineIdx_none_no_nl : ∀ (l : List Char), lastNewlineIdx l = none →
    ∀ i, i < l.length → l[i]? ≠ some '\n' := by
  intro l
  induction l with
  | nil =>
      intro _ i hi
      simp at hi
  | cons c rest ih =>
      intro h i hi
      simp only [lastNewlineIdx] at h
      cases hr : lastNewlineIdx rest with
      | some j =>
          rw [hr] at h
          simp at h
      | none =>
          rw [hr] at h
          by_cases hc : (c == '\n') = true
          · rw [if_pos hc] at h
            simp at h
          · cases i with
            | zero =>
                simp only [List.getElem?_cons_zero]
                intro he
                rw [Option.some_inj] at he
                rw [he] at hc
                simp at hc
            | succ i2 =>
                simp only [List.getElem?_cons_succ]
                exact ih hr i2 (by simpa using hi)

/-- Helper: lastNewlineIdx returns the index of a newline and no later index
holds a newline, i.e. the nearest newline preceding the end of the window. -/
theorem lastNewlineIdx_some_nl : ∀ (l : List Char) (j : Nat), lastNewlineIdx l = some j →
    l[j]? = some '\n' ∧ ∀ i, j < i → i < l.length → l[i]? ≠ some '\n' := by
  intro l
  induction l with
  | nil =>
      intro j h
      simp [lastNewlineIdx] at h
  | cons c rest ih =>
      intro j h
      simp only [lastNewlineIdx] at h
      cases hr : lastNewlineIdx rest with
      | some j2 =>
          rw [hr] at h
          rw [Option.some_inj] at h
          subst h
          obtain ⟨h1, h2⟩ := ih j2 hr
          refine ⟨by simpa using h1, ?_⟩
          intro i hji hil
          cases i with
          | zero => omega
          | succ i2 =>
              simp only [List.getElem?_cons_succ]
              exact h2 i2 (by omega) (by simpa using hil)
      | none =>
          rw [hr] at h
          by_cases hc : (c == '\n') = true
          · rw [if_pos hc] at h
            rw [Option.some_inj] at h
            subst h
            have hc2 : c = '\n' := eq_of_beq hc
            subst hc2
            refine ⟨by simp, ?_⟩
            intro i h0 hil
            cases i with
            | zero => omega
            | succ i2 =>
                simp only [List.getElem?_cons_succ]
                exact lastNewlineIdx_none_no_nl rest hr i2 (by simpa using hil)
          · rw [if_neg hc] at h
            simp at h

/-- Helper: a replicate of a non-newline character has no last newline. -/
theorem lastNewlineIdx_replicate (n : Nat) (c : Char) (h : (c == '\n') = false) :
    lastNewlineIdx (List.replicate n c) = none := by
  induction n with
  | zero => rfl
  | succ m ih => simp [List.replicate_succ, lastNewlineIdx, ih, h]

/-- Helper: dropWhile never lengthens a list. -/
theorem dropWhile_length_le (p : Char → Bool) (l : List Char) :
    (l.dropWhile p).length ≤ l.length := by
  induction l with
  | nil => simp
  | cons c cs ih =>
      by_cases h : p c = true
      · simp only [List.dropWhile_cons, h, if_true]
        exact le_trans ih (by simp)
      · simp [List.dropWhile_cons, h]

/-- Helper: lastNewlineIdx over an append, when the right part has a last
newline, is that index shifted by the left length. -/
theorem lastNewlineIdx_append_some (a b : List Char) (j : Nat)
    (hb : lastNewlineIdx b = some j) :
    lastNewlineIdx (a ++ b) = some (a.length + j) := by
  induction a with
  | nil => simpa using hb
  | cons c rest ih =>
      have h0 : lastNewlineIdx ((c :: rest) ++ b) =
          match lastNewlineIdx (rest ++ b) with
          | some j2 => some (j2 + 1)
          | none => if c == '\n' then some 0 else none := rfl
      rw [h0, ih]
      show some (rest.length + j + 1) = some ((c :: rest).length + j)
      rw [Option.some_inj, List.length_cons]
      omega

/-- Helper: a newline in front of a newline-free tail is the last newline. -/
theorem lastNewlineIdx_cons_nl (l : List Char) (h : lastNewlineIdx l = none) :
    lastNewlineIdx ('\n' :: l) = some 0 := by
  simp [lastNewlineIdx, h]

/-- Helper: the split point is always at least 2000. -/
theorem outboxSplitPoint_ge (s : List Char) : 2000 ≤ outboxSplitPoint s := by
  unfold outboxSplitPoint
  cases h : lastNewlineIdx (s.take 4000) with
  | none => simp
  | some j =>
      by_cases hj : j < 2000
      · simp [hj]
      · simp only [if_neg hj]
        omega

/-- Helper: with fuel left, a nonempty text of at most 4000 characters is a
single chunk. -/
theorem outboxSplitAux_small (n : Nat) (s : List Char) (hne : s ≠ [])
    (hlen : s.length ≤ 4000) : outboxSplitAux (n + 1) s = [s] := by
  cases s with
  | nil => exact absurd rfl hne
  | cons c cs =>
      simp only [outboxSplitAux]
      rw [if_pos hlen]

/-- Helper: with fuel left, a text longer than 4000 characters splits at the
split point and recurses past the stripped leading newlines. -/
theorem outboxSplitAux_cons_big (n : Nat) (c : Char) (cs : List Char)
    (h : ¬ (c :: cs).length ≤ 4000) :
    outboxSplitAux (n + 1) (c :: cs) =
      (c :: cs).take (outboxSplitPoint (c :: cs)) ::
        outboxSplitAux n
          (((c :: cs).drop (outboxSplitPoint (c :: cs))).dropWhile (fun x => x == '\n')) := by
  simp only [outboxSplitAux]
  rw [if_neg h]

/-- Helper: the first step of outboxSplit on a text longer than the limit. -/
theorem outboxSplit_big_eq (s : List Char) (h : 4000 < s.length) :
    outboxSplit s =
      s.take (outboxSplitPoint s) ::
        outboxSplitAux (s.length - 1)
          ((s.drop (outboxSplitPoint s)).dropWhile (fun x => x == '\n')) := by
  cases s with
  | nil => simp at h
  | cons c cs =>
      rw [outboxSplit]
      rw [show (c :: cs).length = ((c :: cs).length - 1) + 1 by simp]
      rw [outboxSplitAux_cons_big _ c cs (by omega)]
      simp

/-- Helper: reconstruction of the original text from the chunks and the
newline runs stripped at the split points, by induction on the fuel. -/
theorem outboxSplitAux_reconstruct : ∀ (n : Nat) (s : List Char), s.length ≤ n →
    ∃ seps : List (List Char),
      (∀ sep ∈ seps, ∀ ch ∈ sep, ch = '\n') ∧
      interleaveJoin (outboxSplitAux n s) seps = s := by
  intro n
  induction n with
  | zero =>
      intro s hs
      have hnil : s = [] := List.length_eq_zero.1 (Nat.le_zero.1 hs)
      subst hnil
      exact ⟨[], by simp, rfl⟩
  | succ m ih =>
      intro s hs
      cases s with
      | nil => exact ⟨[], by simp, rfl⟩
      | cons c cs =>
          by_cases hlen : (c :: cs).length ≤ 4000
          · refine ⟨[], by simp, ?_⟩
            rw [outboxSplitAux_small m _ (by simp) hlen]
            simp [interleaveJoin]
          · rw [outboxSplitAux_cons_big m c cs hlen]
            have hk : 2000 ≤ outboxSplitPoint (c :: cs) := outboxSplitPoint_ge _
            have hrlen :
                (((c :: cs).drop (outboxSplitPoint (c :: cs))).dropWhile
                  (fun x => x == '\n')).length ≤ m := by
              have h1 := dropWhile_length_le (fun x : Char => x == '\n')
                ((c :: cs).drop (outboxSplitPoint (c :: cs)))
              have h2 : ((c :: cs).drop (outboxSplitPoint (c :: cs))).length =
                  (c :: cs).length - outboxSplitPoint (c :: cs) := by simp
              have h4 : (c :: cs).length ≤ m + 1 := hs
              omega
            obtain ⟨seps, hsepsNL, hjoin⟩ := ih _ hrlen
            refine ⟨((c :: cs).drop (outboxSplitPoint (c :: cs))).takeWhile
              (fun x => x == '\n') :: seps, ?_, ?_⟩
            · intro sep hsep ch hch
              rcases List.mem_cons.1 hsep with rfl | hsep2
              · have hp := List.mem_takeWhile_imp hch
                exact eq_of_beq hp
              · exact hsepsNL sep hsep2 ch hch
            · simp only [interleaveJoin]
              rw [hjoin, List.append_assoc]
              conv_rhs => rw [← List.take_append_drop (outboxSplitPoint (c :: cs)) (c :: cs)]
              congr 1
              exact List.takeWhile_append_dropWhile (fun x => x == '\n')
                ((c :: cs).drop (outboxSplitPoint (c :: cs)))

/-- Claim C7, counterexample: c7Text has its only newline at index 1999,
which lies in the final 2048 positions of the 4000-character window
(1999 is at least 4000 - 2048), yet the broadcast splitter hard-splits the
first chunk at 4000 instead of at that newline, because the code accepts a
newline only at index 2000 or later. -/
theorem outbox_split_2048_cex :
    lastNewlineIdx (c7Text.take 4000) = some 1999
    ∧ 4000 - 2048 ≤ 1999
    ∧ outboxSplit c7Text = [c7Text.take 4000, ['b']]
    ∧ (c7Text.take 4000).length = 4000
    ∧ (outboxSplit c7Text).head? ≠ some (c7Text.take 1999)
    ∧ c7Text[1999]? = some '\n' := by
  have hlen : c7Text.length = 4001 := by
    rw [c7Text, List.length_append, List.length_replicate, List.length_cons,
      List.length_replicate]
  have htake : c7Text.take 4000 =
      List.replicate 1999 'a' ++ '\n' :: List.replicate 2000 'b' := by
    rw [c7Text, List.take_append_eq_append_take, List.length_replicate]
    rw [List.take_of_length_le (by rw [List.length_replicate]; norm_num)]
    rw [show (4000 : Nat) - 1999 = 2000 + 1 by norm_num]
    rw [List.take_succ_cons, List.take_replicate]
    rw [show min 2000 2001 = 2000 by norm_num]
  have hinner : lastNewlineIdx ('\n' :: List.replicate 2000 'b') = some 0 :=
    lastNewlineIdx_cons_nl (List.replicate 2000 'b')
      (lastNewlineIdx_replicate 2000 'b' (by decide))
  have hlast : lastNewlineIdx (c7Text.take 4000) = some 1999 := by
    rw [htake, lastNewlineIdx_append_some _ _ 0 hinner, List.length_replicate]
  have hsp : outboxSplitPoint c7Text = 4000 := by
    unfold outboxSplitPoint
    rw [hlast]
    norm_num
  have hdrop : c7Text.drop 4000 = ['b'] := by
    rw [c7Text, List.drop_append_eq_append_drop, List.length_replicate]
    rw [List.drop_eq_nil_of_le (by rw [List.length_replicate]; norm_num), List.nil_append]
    rw [show (4000 : Nat) - 1999 = 2000 + 1 by norm_num]
    rw [List.drop_succ_cons, List.drop_replicate]
    rw [show (2001 : Nat) - 2000 = 1 by norm_num]
    rfl
  have hsplit : outboxSplit c7Text = [c7Text.take 4000, ['b']] := by
    rw [outboxSplit_big_eq c7Text (by rw [hlen]; norm_num), hsp, hdrop, hlen]
    rw [show (4001 - 1 : Nat) = 3999 + 1 by norm_num]
    rw [show (List.dropWhile (fun x => x == '\n') ['b']) = ['b'] from rfl]
    rw [outboxSplitAux_small 3999 ['b'] (by decide) (by decide)]
  have htklen : (c7Text.take 4000).length = 4000 := by
    rw [List.length_take, hlen]
    norm_num
  refine ⟨hlast, by norm_num, hsplit, htklen, ?_, ?_⟩
  · rw [hsplit]
    simp only [List.head?_cons, ne_eq, Option.some_inj]
    intro he
    have hc : (c7Text.take 4000).length = (c7Text.take 1999).length := by rw [he]
    rw [htklen, List.length_take, hlen] at hc
    norm_num at hc
  · rw [c7Text, List.getElem?_append_right (by rw [List.length_replicate])]
    rw [List.length_replicate]
    rw [show (1999 : Nat) - 1999 = 0 by norm_num]
    rw [List.getElem?_cons_zero]

/-- Claim C7, amended: the outbox broadcast splits a message longer than the
4000-character limit at the nearest newline preceding the limit provided
that newline lies at index 2000 or later (the final 2000 characters of the
window), hard-splits at 4000 otherwise, and the concatenation of the chunks
with the newline runs stripped at each split point reinserted reconstructs
the original text in order. -/
theorem outbox_split_amended :
    (∀ (l : List Char) (j : Nat), lastNewlineIdx l = some j →
        l[j]? = some '\n' ∧ ∀ i, j < i → i < l.length → l[i]? ≠ some '\n')
    ∧ (∀ s : List Char, 4000 < s.length →
        (outboxSplit s).head? = some (s.take (outboxSplitPoint s))
        ∧ (∀ j, lastNewlineIdx (s.take 4000) = some j → 2000 ≤ j → outboxSplitPoint s = j)
        ∧ (∀ j, lastNewlineIdx (s.take 4000) = some j → j < 2000 → outboxSplitPoint s = 4000)
        ∧ (lastNewlineIdx (s.take 4000) = none → outboxSplitPoint s = 4000))
    ∧ (∀ s : List Char, s ≠ [] → s.length ≤ 4000 → outboxSplit s = [s])
    ∧ (∀ s : List Char, ∃ seps : List (List Char),
        (∀ sep ∈ seps, ∀ ch ∈ sep, ch = '\n') ∧
        interleaveJoin (outboxSplit s) seps = s) := by
  refine ⟨lastNewlineIdx_some_nl, ?_, ?_, ?_⟩
  · intro s hs
    refine ⟨?_, ?_, ?_, ?_⟩
    · rw [outboxSplit_big_eq s hs]
      rfl
    · intro j hj h2000
      unfold outboxSplitPoint
      rw [hj]
      show (if j < 2000 then 4000 else j) = j
      rw [if_neg (by omega)]
    · intro j hj hlt
      unfold outboxSplitPoint
      rw [hj]
      show (if j < 2000 then 4000 else j) = 4000
      rw [if_pos hlt]
    · intro hn
      unfold outboxSplitPoint
      rw [hn]
  · intro s hne hlen
    cases s with
    | nil => exact absurd rfl hne
    | cons c cs =>
        rw [outboxSplit]
        rw [show (c :: cs).length = ((c :: cs).length - 1) + 1 by simp]
        exact outboxSplitAux_small _ _ (by simp) hlen
  · intro s
    exact outboxSplitAux_reconstruct s.length s (le_refl _)

/-- Claim C7 witness: a two-character text is a single chunk. -/
theorem outbox_split_amended_witness :
    (['a', 'b'] : List Char) ≠ []
    ∧ (['a', 'b'] : List Char).length ≤ 4000
    ∧ outboxSplit ['a', 'b'] = [['a', 'b']] :=
  ⟨by decide, by decide, outbox_split_amended.2.2.1 ['a', 'b'] (by decide) (by decide)⟩

/-- Helper: a hit of the reverse scan is a real entry at an index below the
scan bound. -/
theorem findExistingAux_get (refs : List RefEntry) (target : String) :
    ∀ (n : Nat) (i : Nat) (e : RefEntry),
      findExistingAux refs target n = some (i, e) → refs[i]? = some e ∧ i < n := by
  intro n
  induction n with
  | zero =>
      intro i e h
      simp [findExistingAux] at h
  | succ m ih =>
      intro i e h
      simp only [findExistingAux] at h
      split at h
      · split at h
        · split at h
          · simp only [Option.some_inj, Prod.mk.injEq] at h
            obtain ⟨rfl, rfl⟩ := h
            refine ⟨by assumption, Nat.lt_succ_self _⟩
          · obtain ⟨h1, h2⟩ := ih i e h
            exact ⟨h1, Nat.lt_succ_of_lt h2⟩
        · obtain ⟨h1, h2⟩ := ih i e h
          exact ⟨h1, Nat.lt_succ_of_lt h2⟩
      · obtain ⟨h1, h2⟩ := ih i e h
        exact ⟨h1, Nat.lt_succ_of_lt h2⟩

/-- Helper: one scan step preserves a hit found deeper in the scan. -/
theorem findExistingAux_succ_isSome (refs : List RefEntry) (target : String) (m : Nat)
    (h : (findExistingAux refs target m).isSome = true) :
    (findExistingAux refs target (m + 1)).isSome = true := by
  simp only [findExistingAux]
  split
  · split
    · split
      · simp
      · exact h
    · exact h
  · exact h

/-- Helper: the scan step at a matching index returns a hit. -/
theorem findExistingAux_succ_hit (refs : List RefEntry) (target : String) (m : Nat)
    (e : RefEntry) (uu : Url) (he : refs[m]? = some e) (hu : e.url = some uu)
    (hc : canonicalUrl uu = target) :
    (findExistingAux refs target (m + 1)).isSome = true := by
  simp only [findExistingAux, he, hu]
  rw [hc]
  simp

/-- Helper: the reverse scan finds something whenever some entry below the
bound matches the target canonically. -/
theorem findExistingAux_isSome (refs : List RefEntry) (target : String) :
    ∀ (n : Nat) (i : Nat) (e : RefEntry) (uu : Url),
      i < n → refs[i]? = some e → e.url = some uu → canonicalUrl uu = target →
      (findExistingAux refs target n).isSome = true := by
  intro n
  induction n with
  | zero =>
      intro i e uu hi _ _ _
      omega
  | succ m ih =>
      intro i e uu hi he hu hc
      by_cases him : i = m
      · subst him
        exact findExistingAux_succ_hit refs target i e uu he hu hc
      · exact findExistingAux_succ_isSome refs target m (ih i e uu (by omega) he hu hc)

/-- Helper: setting an index back to the element it already holds is the
identity. -/
theorem set_getElem_self {α : Type} : ∀ (l : List α) (i : Nat) (a : α),
    l[i]? = some a → l.set i a = l := by
  intro l
  induction l with
  | nil =>
      intro i a h
      simp at h
  | cons c cs ih =>
      intro i a h
      cases i with
      | zero =>
          simp only [List.getElem?_cons_zero, Option.some_inj] at h
          subst h
          rfl
      | succ j =>
          simp only [List.getElem?_cons_succ] at h
          simp [List.set_cons_succ, ih j a h]

/-- Claim C4: canonically equal URLs resolve to the same existing entry; when
an entry with the same canonical URL exists, process_feed updates it in
place: the updated_existing flag is set, the references length is unchanged,
the truthy slug and markdown file name of the existing entry are reused (the
markdown file is overwritten at that name), and the entry at the same index
now carries updated_at = the new timestamp while created_at is preserved
from the existing entry (falling back to its shared_at); moreover after any
upsert of a URL, a second lookup with a canonically equal URL finds an
entry, so the second call takes the update path. -/
theorem process_feed_upsert_in_place :
    (∀ (refs : List RefEntry) (u1 u2 : Url), canonicalUrl u1 = canonicalUrl u2 →
        findExistingReference refs u1 = findExistingReference refs u2)
    ∧ (∀ (refs : List RefEntry) (u : Url) (f : FeedFields) (sharedAt freshSlug : String)
        (idx : Nat) (ex : RefEntry), findExistingReference refs u = some (idx, ex) →
        (upsertReference refs u f sharedAt freshSlug).updatedExisting = true
        ∧ (upsertReference refs u f sharedAt freshSlug).refs.length = refs.length
        ∧ (∀ s0, ex.slug = some s0 → s0 ≠ "" →
            (upsertReference refs u f sharedAt freshSlug).slug = s0)
        ∧ (∀ f0, ex.file = some f0 → f0 ≠ "" →
            (upsertReference refs u f sharedAt freshSlug).fileName = f0)
        ∧ (∃ enew : RefEntry,
            (upsertReference refs u f sharedAt freshSlug).refs[idx]? = some enew
            ∧ enew.updatedAt = some sharedAt
            ∧ enew.createdAt = (match truthyStr ex.createdAt with
                | some c => some c
                | none => truthyStr ex.sharedAt)
            ∧ enew.slug = some (upsertReference refs u f sharedAt freshSlug).slug
            ∧ enew.file = some (upsertReference refs u f sharedAt freshSlug).fileName
            ∧ enew.url = some u))
    ∧ (∀ (refs : List RefEntry) (u u2 : Url) (f : FeedFields) (sharedAt freshSlug : String),
        canonicalUrl u2 = canonicalUrl u →
        (findExistingReference (upsertReference refs u f sharedAt freshSlug).refs u2).isSome
          = true) := by
  refine ⟨?_, ?_, ?_⟩
  · intro refs u1 u2 h
    simp [findExistingReference, h]
  · intro refs u f sharedAt freshSlug idx ex hm
    have hget := findExistingAux_get refs (canonicalUrl u) refs.length idx ex hm
    have hupEq : upsertReference refs u f sharedAt freshSlug =
        ⟨refs.set idx (updatedEntry u f sharedAt ex freshSlug), true,
          upsertSlug ex freshSlug, upsertFileName ex freshSlug, some (idx, ex)⟩ := by
      simp only [upsertReference, hm]
    rw [hupEq]
    refine ⟨rfl, List.length_set refs idx _, ?_, ?_, ?_⟩
    · intro s0 hs0 hne
      simp only [upsertSlug, hs0]
      simp [truthyStr, hne]
    · intro f0 hf0 hne
      simp only [upsertFileName, hf0]
      simp [truthyStr, hne]
    · exact ⟨updatedEntry u f sharedAt ex freshSlug,
        List.getElem?_set_self hget.2, rfl, rfl, rfl, rfl, rfl⟩
  · intro refs u u2 f sharedAt freshSlug hc
    cases hm : findExistingReference refs u with
    | some p =>
        obtain ⟨idx, ex⟩ := p
        have hget := findExistingAux_get refs (canonicalUrl u) refs.length idx ex hm
        have hEset : (upsertReference refs u f sharedAt freshSlug).refs =
            refs.set idx (updatedEntry u f sharedAt ex freshSlug) := by
          simp only [upsertReference, hm]
        rw [hEset]
        show (findExistingAux (refs.set idx (updatedEntry u f sharedAt ex freshSlug))
          (canonicalUrl u2)
          (refs.set idx (updatedEntry u f sharedAt ex freshSlug)).length).isSome = true
        refine findExistingAux_isSome _ (canonicalUrl u2) _ idx
          (updatedEntry u f sharedAt ex freshSlug) u ?_ ?_ rfl hc.symm
        · simpa using hget.2
        · exact List.getElem?_set_self (by simpa using hget.2)
    | none =>
        have hEset : (upsertReference refs u f sharedAt freshSlug).refs =
            refs ++ [appendedEntry u f sharedAt freshSlug] := by
          simp only [upsertReference, hm]
        rw [hEset]
        show (findExistingAux (refs ++ [appendedEntry u f sharedAt freshSlug])
          (canonicalUrl u2)
          (refs ++ [appendedEntry u f sharedAt freshSlug]).length).isSome = true
        refine findExistingAux_isSome _ (canonicalUrl u2) _ refs.length
          (appendedEntry u f sharedAt freshSlug) u ?_ ?_ rfl hc.symm
        · simp
        · exact List.getElem?_concat_length refs _

/-- Claim C4 witness: a second call on the example repository URL with a
trailing slash updates the existing entry in place. -/
theorem process_feed_upsert_in_place_witness :
    (upsertReference [exampleEntry] exampleRepoUrlSlash exampleFields
      "2026-02-24T09:00:00Z" "fresh").updatedExisting = true
    ∧ (upsertReference [exampleEntry] exampleRepoUrlSlash exampleFields
      "2026-02-24T09:00:00Z" "fresh").refs.length = ([exampleEntry] : List RefEntry).length
    ∧ (upsertReference [exampleEntry] exampleRepoUrlSlash exampleFields
      "2026-02-24T09:00:00Z" "fresh").slug = "2026-02-23-example-repo"
    ∧ (upsertReference [exampleEntry] exampleRepoUrlSlash exampleFields
      "2026-02-24T09:00:00Z" "fresh").fileName = "2026-02-23-example-repo.md"
    ∧ (findExistingReference (upsertReference [exampleEntry] exampleRepoUrl exampleFields
        "2026-02-24T09:00:00Z" "fresh").refs exampleRepoUrlSlash).isSome = true :=
  ⟨(process_feed_upsert_in_place.2.1 [exampleEntry] exampleRepoUrlSlash exampleFields
      "2026-02-24T09:00:00Z" "fresh" 0 exampleEntry (by decide)).1,
    (process_feed_upsert_in_place.2.1 [exampleEntry] exampleRepoUrlSlash exampleFields
      "2026-02-24T09:00:00Z" "fresh" 0 exampleEntry (by decide)).2.1,
    (process_feed_upsert_in_place.2.1 [exampleEntry] exampleRepoUrlSlash exampleFields
      "2026-02-24T09:00:00Z" "fresh" 0 exampleEntry (by decide)).2.2.1
      "2026-02-23-example-repo" rfl (by decide),
    (process_feed_upsert_in_place.2.1 [exampleEntry] exampleRepoUrlSlash exampleFields
      "2026-02-24T09:00:00Z" "fresh" 0 exampleEntry (by decide)).2.2.2.1
      "2026-02-23-example-repo.md" rfl (by decide),
    process_feed_upsert_in_place.2.2 [exampleEntry] exampleRepoUrl exampleRepoUrlSlash
      exampleFields "2026-02-24T09:00:00Z" "fresh" (by decide)⟩

/-- Claim C5: every index write performed by process_feed leaves the
references list either validated (every entry carries the required fields)
or restored to the exact prior state: on validation failure the replaced
entry is put back, or the appended entry is popped, and the restored list is
written back. -/
theorem index_write_validate_or_restore (refs : List RefEntry) (u : Url) (f : FeedFields)
    (sharedAt freshSlug : String) :
    ((processFeedIndexWrite refs u f sharedAt freshSlug).2 = true
      ∧ validateIndex (processFeedIndexWrite refs u f sharedAt freshSlug).1 = true)
    ∨ ((processFeedIndexWrite refs u f sharedAt freshSlug).2 = false
      ∧ (processFeedIndexWrite refs u f sharedAt freshSlug).1 = refs) := by
  by_cases hv : validateIndex (upsertReference refs u f sharedAt freshSlug).refs = true
  · left
    constructor
    · simp [processFeedIndexWrite, hv]
    · simp [processFeedIndexWrite, hv]
  · right
    have hfalse : processFeedIndexWrite refs u f sharedAt freshSlug =
        (revertUpsert (upsertReference refs u f sharedAt freshSlug).refs
          (upsertReference refs u f sharedAt freshSlug).replaced, false) := by
      simp only [processFeedIndexWrite]
      rw [if_neg hv]
    refine ⟨by rw [hfalse], ?_⟩
    rw [hfalse]
    show revertUpsert (upsertReference refs u f sharedAt freshSlug).refs
      (upsertReference refs u f sharedAt freshSlug).replaced = refs
    cases hm : findExistingReference refs u with
    | some p =>
        obtain ⟨idx, ex⟩ := p
        have hget := findExistingAux_get refs (canonicalUrl u) refs.length idx ex hm
        have hupEq : upsertReference refs u f sharedAt freshSlug =
            ⟨refs.set idx (updatedEntry u f sharedAt ex freshSlug), true,
              upsertSlug ex freshSlug, upsertFileName ex freshSlug, some (idx, ex)⟩ := by
          simp only [upsertReference, hm]
        rw [hupEq]
        simp only [revertUpsert]
        rw [List.set_set]
        exact set_getElem_self refs idx ex hget.1
    | none =>
        have hupEq : upsertReference refs u f sharedAt freshSlug =
            ⟨refs ++ [appendedEntry u f sharedAt freshSlug], false,
              freshSlug, freshSlug ++ ".md", none⟩ := by
          simp only [upsertReference, hm]
        rw [hupEq]
        simp only [revertUpsert]
        exact List.dropLast_concat

end Galaxy
